import Mathlib

/-!
Verification of the paz detection post-processing and keypoint-geometry
routines.  Numeric arrays are embedded as lists of rationals: a box array of
shape `(N, 4 + C)` becomes a `List (List ℚ)` whose rows hold four coordinates
followed by `C` class scores.  Fallible code returns `Except`, and the
non-finite values produced by floating-point division by zero are modelled
as `Option.none`.
-/

namespace Paz

/-- Area of an axis-aligned box `[x_min, y_min, x_max, y_max]`. -/
def boxArea (b : List ℚ) : ℚ :=
  (b.getD 2 0 - b.getD 0 0) * (b.getD 3 0 - b.getD 1 0)

/-- Intersection area of two axis-aligned boxes. -/
def interArea (a b : List ℚ) : ℚ :=
  max 0 (min (a.getD 2 0) (b.getD 2 0) - max (a.getD 0 0) (b.getD 0 0)) *
  max 0 (min (a.getD 3 0) (b.getD 3 0) - max (a.getD 1 0) (b.getD 1 0))

/-- Modelled from the spec: intersection-over-union on axis-aligned boxes
(`paz.backend.boxes` is not under `src/`).  Spec §4.1: "IoU is computed on
axis-aligned boxes via intersection area divided by union area; degenerate
(zero-area) boxes must not divide by zero — clamp union to ≥ epsilon or
treat as zero overlap."  A non-positive union is treated as zero overlap. -/
def iou (a b : List ℚ) : ℚ :=
  if boxArea a + boxArea b - interArea a b ≤ 0 then 0
  else interArea a b / (boxArea a + boxArea b - interArea a b)

/-- One greedily selected suppression pass over `(index, box, score)`
triples: select the head, drop every remaining triple whose IoU with the
selected box exceeds the threshold, recurse; the fuel caps the number of
selections. -/
def greedySel (t : ℚ) : ℕ → List (ℕ × List ℚ × ℚ) → List (ℕ × List ℚ × ℚ)
  | 0, _ => []
  | _ + 1, [] => []
  | k + 1, b :: rest =>
      b :: greedySel t k (rest.filter (fun c => decide (iou b.2.1 c.2.1 ≤ t)))

/-- Descending-score order on `(index, box, score)` triples, ties broken by
ascending original index so that the sort is stable ("first-seen wins"). -/
def scoreOrder : (ℕ × List ℚ × ℚ) → (ℕ × List ℚ × ℚ) → Prop :=
  fun a b => b.2.2 < a.2.2 ∨ (a.2.2 = b.2.2 ∧ a.1 ≤ b.1)

instance : DecidableRel scoreOrder :=
  fun a b => inferInstanceAs (Decidable (b.2.2 < a.2.2 ∨ (a.2.2 = b.2.2 ∧ a.1 ≤ b.1)))

/-- Modelled from the spec: `apply_non_max_suppression` is imported by
`examples/efficientdet/boxes.py` from `paz.backend.boxes`, which is not
under `src/`.  Spec §4.1: "run greedy suppression: sort remaining boxes by
descending score, repeatedly select the highest-scoring box, remove all
boxes with IoU above the suppression threshold against the selected box, cap
result at top_k", with "Tie-break on equal scores: stable by original index
(first-seen wins)".  Returns the original indices of the surviving boxes in
selection order. -/
def apply_non_max_suppression (boxes : List (List ℚ)) (scores : List ℚ)
    (nms_thresh : ℚ) (top_k : ℕ) : List ℕ :=
  (greedySel nms_thresh top_k
    (List.insertionSort scoreOrder (boxes.zip scores).enum)).map Prod.fst

/-- Score of a row for class `c`: column `4 + c` of the row
(`class_predictions[:, class_arg]` in `boxes.py`). -/
def classScore (c : ℕ) (row : List ℚ) : ℚ := row.getD (4 + c) 0

/-- `class_predictions.shape[1]` for a box array of shape `(N, 4 + C)`. -/
def numClasses (box_data : List (List ℚ)) : ℕ := (box_data.headD []).length - 4

/-- `box_data[mask]` for `mask = class_predictions[:, class_arg] >= conf_thresh`
(`boxes.py` line 22). -/
def maskedRows (box_data : List (List ℚ)) (conf_thresh : ℚ) (c : ℕ) :
    List (List ℚ) :=
  box_data.filter (fun row => decide (conf_thresh ≤ classScore c row))

/-- `boxes = decoded_boxes[mask]` (`boxes.py` lines 18 and 26): the first
four columns of the rows passing the confidence mask. -/
def maskedBoxes (box_data : List (List ℚ)) (conf_thresh : ℚ) (c : ℕ) :
    List (List ℚ) :=
  (maskedRows box_data conf_thresh c).map (List.take 4)

/-- `scores = class_predictions[:, class_arg][mask]` (`boxes.py` line 23). -/
def maskedScores (box_data : List (List ℚ)) (conf_thresh : ℚ) (c : ℕ) :
    List ℚ :=
  (maskedRows box_data conf_thresh c).map (classScore c)

/-- `classes = class_predictions[mask]` (`boxes.py` line 31): the full
class-score rows of the rows passing the confidence mask. -/
def maskedClasses (box_data : List (List ℚ)) (conf_thresh : ℚ) (c : ℕ) :
    List (List ℚ) :=
  (maskedRows box_data conf_thresh c).map (List.drop 4)

/-- Body of one iteration of the class loop of `nms_per_class`
(`boxes.py` lines 22–34): mask by confidence, skip the class when no score
survives, run NMS on the masked coordinates and scores, and gather
`boxes[selected_indices]` concatenated with `classes[selected_indices]`. -/
def selectedRows (box_data : List (List ℚ)) (nms_thresh conf_thresh : ℚ)
    (top_k : ℕ) (c : ℕ) : List (List ℚ) :=
  if (maskedRows box_data conf_thresh c).isEmpty then [] else
    (apply_non_max_suppression (maskedBoxes box_data conf_thresh c)
        (maskedScores box_data conf_thresh c) nms_thresh top_k).filterMap
      (fun i => ((maskedBoxes box_data conf_thresh c)[i]?).bind
        (fun b => ((maskedClasses box_data conf_thresh c)[i]?).map
          (fun cl => b ++ cl)))

/-- `nms_per_class` (`boxes.py` lines 6–36): starting from an empty output,
accumulate the per-class selections over every class argument. -/
def nms_per_class (box_data : List (List ℚ)) (nms_thresh conf_thresh : ℚ)
    (top_k : ℕ) : List (List ℚ) :=
  (List.range (numClasses box_data)).foldl
    (fun output c => output ++ selectedRows box_data nms_thresh conf_thresh top_k c) []

/-- `filter_boxes` (`boxes.py` lines 39–43): keep the rows whose maximum
class score (`np.max(boxes[:, 4:], axis=1)`) is at least `conf_thresh`. -/
def filter_boxes (boxes : List (List ℚ)) (conf_thresh : ℚ) : List (List ℚ) :=
  boxes.filter (fun row =>
    match (row.drop 4).max? with
    | some m => decide (conf_thresh ≤ m)
    | none => false)

/-- Dot product of two coordinate lists. -/
def dot (a b : List ℚ) : ℚ := (List.zipWith (fun x y => x * y) a b).sum

/-- One row of `np.matmul(rotation, points3D.T).T + translation`
(`keypoints.py` line 197): the rigid transform of a single point. -/
def camPoint (rotation : List (List ℚ)) (translation : List ℚ)
    (p : List ℚ) : List ℚ :=
  List.zipWith (fun x y => x + y) (rotation.map (fun row => dot row p)) translation

/-- Floating-point division by the depth `z` (`keypoints.py` lines 203–204):
numpy produces a non-finite value (Inf or NaN) when `z = 0`, which this
embedding models as `none`; for `z ≠ 0` the exact quotient is returned. -/
def depthDiv (x z : ℚ) : Option ℚ := if z = 0 then none else some (x / z)

/-- `project_to_image` (`keypoints.py` lines 165–206).  The three `ValueError`
branches guard the shapes; in this list-of-lists embedding the
`len(points3D.shape) != 2` check is intrinsic to the representation, and
`points3D.shape[1] != 3` becomes the row-length check.  Each point is rigidly
transformed and perspective-divided; each output coordinate is `none` exactly
when the unguarded division by its depth was division by zero. -/
def project_to_image (rotation : List (List ℚ)) (translation : List ℚ)
    (points3D : List (List ℚ)) (camera_intrinsics : List (List ℚ)) :
    Except String (List (Option ℚ × Option ℚ)) :=
  if ¬ (rotation.length = 3 ∧ ∀ r ∈ rotation, r.length = 3) then
    Except.error "Rotation matrix is not of shape (3, 3)"
  else if translation.length ≠ 3 then
    Except.error "Translation vector is not of length 3"
  else if ∃ r ∈ points3D, r.length ≠ 3 then
    Except.error "Points3D should have a shape (num_points, 3)"
  else
    Except.ok (points3D.map (fun p =>
      ((depthDiv ((camPoint rotation translation p).getD 0 0)
          ((camPoint rotation translation p).getD 2 0)).map
        (fun q => (camera_intrinsics.getD 0 []).getD 0 0 * q +
          (camera_intrinsics.getD 0 []).getD 2 0),
       (depthDiv ((camPoint rotation translation p).getD 1 0)
          ((camPoint rotation translation p).getD 2 0)).map
        (fun q => (camera_intrinsics.getD 1 []).getD 1 0 * q +
          (camera_intrinsics.getD 1 []).getD 2 0))))

/-- `_preprocess_image_points2D` (`keypoints.py` lines 238–251): reshape
`(num_points, 2)` to `(num_points, 1, 2)`; the dtype and contiguity
conversions are identities in this exact embedding. -/
def preprocess_image_points2D (image_points2D : List (List ℚ)) :
    List (List (List ℚ)) :=
  image_points2D.map (fun p => [p])

/-- `np.squeeze(translation, 1)`: succeeds only when axis 1 is a singleton
dimension; numpy raises otherwise. -/
def squeezeAxis1 (m : List (List ℚ)) : Option (List ℚ) :=
  if m.all (fun r => r.length = 1) then some (m.map (fun r => r.headD 0)) else none

/-- `solve_PnP_RANSAC` (`keypoints.py` lines 254–297).  The external
`cv2.solvePnPRansac` call is a parameter `solvePnPRansac` taking the 3D
points, the preprocessed 2D points, the intrinsics, the reprojection-error
threshold and the iteration count, and returning
`(success, rotation_vector, translation, inliers)` with the translation as a
column array of shape `(n, 1)`. -/
def solve_PnP_RANSAC
    (solvePnPRansac : List (List ℚ) → List (List (List ℚ)) → List (List ℚ) →
      ℚ → ℕ → Bool × List (List ℚ) × List (List ℚ) × List ℕ)
    (object_points3D : List (List ℚ)) (image_points2D : List (List ℚ))
    (camera_intrinsics : List (List ℚ)) (inlier_threshold : ℚ)
    (num_iterations : ℕ) : Except String (Bool × List (List ℚ) × List ℚ) :=
  if object_points3D.length < 4 ∨ image_points2D.length < 4 then
    Except.error "Solve PnP requires at least 4 3D and 2D points"
  else
    let res := solvePnPRansac object_points3D
      (preprocess_image_points2D image_points2D) camera_intrinsics
      inlier_threshold num_iterations
    match squeezeAxis1 res.2.2.1 with
    | some t => Except.ok (res.1, res.2.1, t)
    | none => Except.error "cannot squeeze axis 1 of the translation"

/-- An image: height, width, channel count, and a pixel function. -/
structure Image where
  height : ℕ
  width : ℕ
  channels : ℕ
  pix : ℕ → ℕ → ℕ → ℚ

/-- `image_scale = np.minimum(image_scale_x, image_scale_y)` of
`ScaledResize.call` (`processors.py` lines 58–60). -/
def uniformScale (image_size : ℕ) (image : Image) : ℚ :=
  min ((image_size : ℚ) / (image.width : ℚ)) ((image_size : ℚ) / (image.height : ℚ))

/-- `scaled_height = (height * image_scale).astype('int32')`
(`processors.py` line 61); the value is nonnegative, so the `int32`
truncation is a floor. -/
def scaledHeight (image_size : ℕ) (image : Image) : ℕ :=
  (⌊(image.height : ℚ) * uniformScale image_size image⌋).toNat

/-- `scaled_width = (width * image_scale).astype('int32')`
(`processors.py` line 62). -/
def scaledWidth (image_size : ℕ) (image : Image) : ℕ :=
  (⌊(image.width : ℚ) * uniformScale image_size image⌋).toNat

/-- `scaled_image[0:image_size, 0:image_size, :]` (`processors.py`
lines 64–67, with zero crop offsets). -/
def cropSquare (image_size : ℕ) (im : Image) : Image :=
  ⟨min im.height image_size, min im.width image_size, im.channels, im.pix⟩

/-- `ScaledResize.call` (`processors.py` lines 49–76).  The external
`paz.backend.image.resize_image` collaborator is a parameter taking the
image and the requested `(width, height)`.  A zero canvas of shape
`(image_size, image_size, channels)` receives the cropped resized image at
the top-left corner, and the returned scale is inverted.  The trailing
`np.newaxis` batch dimension is omitted from the embedding. -/
def ScaledResize_call (resize_image : Image → ℕ → ℕ → Image)
    (image_size : ℕ) (image : Image) : Image × ℚ :=
  let scaled_image := resize_image image
    (scaledWidth image_size image) (scaledHeight image_size image)
  let cropped := cropSquare image_size scaled_image
  let output : Image := ⟨image_size, image_size, image.channels, fun i j k =>
    if i < cropped.height ∧ j < cropped.width ∧ k < cropped.channels then
      cropped.pix i j k
    else 0⟩
  (output, 1 / uniformScale image_size image)

/-- `normalize_keypoints2D` (`keypoints.py` lines 49–76): divide by
`[width, height]`, double, subtract one. -/
def normalize_keypoints2D (points2D : List (ℚ × ℚ)) (h w : ℚ) :
    List (ℚ × ℚ) :=
  points2D.map (fun p => (2 * (p.1 / w) - 1, 2 * (p.2 / h) - 1))

/-- `denormalize_keypoints2D` (`keypoints.py` lines 79–105): add one, halve,
multiply by `[width, height]`. -/
def denormalize_keypoints2D (points2D : List (ℚ × ℚ)) (h w : ℚ) :
    List (ℚ × ℚ) :=
  points2D.map (fun p => ((p.1 + 1) / 2 * w, (p.2 + 1) / 2 * h))

/-- Deprecated `normalize_keypoints` (`keypoints.py` lines 331–348): uses a
flipped-y convention, `y = ((height - 0.5 - y) - height/2) / (height/2)`. -/
def normalize_keypoints (keypoints : List (ℚ × ℚ)) (h w : ℚ) :
    List (ℚ × ℚ) :=
  keypoints.map (fun p =>
    (((p.1 + 1/2) - w / 2) / (w / 2), ((h - 1/2 - p.2) - h / 2) / (h / 2)))

end Paz

namespace Paz

theorem interArea_comm (a b : List ℚ) : interArea a b = interArea b a := by
  unfold interArea
  rw [min_comm (a.getD 2 0), max_comm (a.getD 0 0), min_comm (a.getD 3 0),
    max_comm (a.getD 1 0)]

theorem iou_comm (a b : List ℚ) : iou a b = iou b a := by
  unfold iou
  rw [interArea_comm, add_comm (boxArea a)]

theorem greedySel_length_le (t : ℚ) :
    ∀ (k : ℕ) (l : List (ℕ × List ℚ × ℚ)), (greedySel t k l).length ≤ k := by
  intro k
  induction k with
  | zero => intro l; simp [greedySel]
  | succ k ih =>
    intro l
    cases l with
    | nil => simp [greedySel]
    | cons b rest => simpa [greedySel] using Nat.succ_le_succ (ih _)

theorem mem_of_mem_greedySel (t : ℚ) :
    ∀ (k : ℕ) (l : List (ℕ × List ℚ × ℚ)) (a : ℕ × List ℚ × ℚ),
      a ∈ greedySel t k l → a ∈ l := by
  intro k
  induction k with
  | zero => intro l a h; simp [greedySel] at h
  | succ k ih =>
    intro l a h
    cases l with
    | nil => simp [greedySel] at h
    | cons b rest =>
      simp only [greedySel, List.mem_cons] at h
      rcases h with h | h
      · exact h ▸ List.mem_cons_self b rest
      · exact List.mem_cons_of_mem b (List.mem_of_mem_filter (ih _ _ h))

theorem greedySel_pairwise (t : ℚ) :
    ∀ (k : ℕ) (l : List (ℕ × List ℚ × ℚ)),
      (greedySel t k l).Pairwise (fun a b => iou a.2.1 b.2.1 ≤ t) := by
  intro k
  induction k with
  | zero => intro l; simp [greedySel]
  | succ k ih =>
    intro l
    cases l with
    | nil => simp [greedySel]
    | cons b rest =>
      rw [greedySel]
      refine List.Pairwise.cons ?_ (ih _)
      intro a ha
      have h2 := List.of_mem_filter (mem_of_mem_greedySel t k _ a ha)
      simpa using h2

theorem foldl_append_eq_join {α β : Type} (f : β → List α) :
    ∀ (l : List β) (acc : List α),
      l.foldl (fun out c => out ++ f c) acc = acc ++ (l.map f).flatten := by
  intro l
  induction l with
  | nil => intro acc; simp
  | cons c l ih => intro acc; simp [ih, List.append_assoc]

theorem selected_row_take (masked : List (List ℚ)) (c : ℕ)
    (p : ℕ × List ℚ × ℚ)
    (hp : p ∈ ((masked.map (List.take 4)).zip (masked.map (classScore c))).enum)
    (x : List ℚ)
    (hx : ((masked.map (List.take 4))[p.1]?).bind
        (fun b => ((masked.map (List.drop 4))[p.1]?).map (fun cl => b ++ cl))
      = some x) :
    x.take 4 = p.2.1 := by
  rw [List.mem_enum_iff_getElem?] at hp
  have hbox := (List.getElem?_zip_eq_some.mp hp).1
  rw [List.getElem?_map] at hbox
  rcases Option.map_eq_some'.mp hbox with ⟨row, hrow, htake⟩
  rw [List.getElem?_map, List.getElem?_map, hrow] at hx
  simp only [Option.map_some', Option.some_bind] at hx
  rcases Option.some_inj.mp hx with hx
  rw [← hx, List.take_append_drop, ← htake]

theorem greedySel_insertionSort_mem (t : ℚ) (k : ℕ)
    (E : List (ℕ × List ℚ × ℚ)) (p : ℕ × List ℚ × ℚ)
    (hp : p ∈ greedySel t k (List.insertionSort scoreOrder E)) : p ∈ E :=
  (List.perm_insertionSort scoreOrder E).mem_iff.mp
    (mem_of_mem_greedySel t k _ p hp)

/-- C1: for every input box array and thresholds, `nms_per_class` is the
class-by-class concatenation of the per-class selections; each per-class
selection has at most `top_k` boxes, and no two of its surviving boxes have
IoU above the suppression threshold (in either argument order), because the
greedy pass removes every box whose IoU with a selected box exceeds the
threshold. -/
theorem nms_per_class_no_overlapping_survivors (box_data : List (List ℚ))
    (nms_thresh conf_thresh : ℚ) (top_k : ℕ) :
    nms_per_class box_data nms_thresh conf_thresh top_k
        = ((List.range (numClasses box_data)).map
            (selectedRows box_data nms_thresh conf_thresh top_k)).flatten
      ∧ (∀ c, (selectedRows box_data nms_thresh conf_thresh top_k c).length
          ≤ top_k)
      ∧ ∀ c, (selectedRows box_data nms_thresh conf_thresh top_k c).Pairwise
          (fun r s => iou (r.take 4) (s.take 4) ≤ nms_thresh ∧
            iou (s.take 4) (r.take 4) ≤ nms_thresh) := by
  refine ⟨?_, ?_, ?_⟩
  · rw [nms_per_class, foldl_append_eq_join, List.nil_append]
  · intro c
    rw [selectedRows]
    split
    · simp
    · refine le_trans (List.length_filterMap_le _ _) ?_
      rw [apply_non_max_suppression, List.length_map]
      exact greedySel_length_le _ _ _
  · intro c
    rw [selectedRows]
    split
    · exact List.Pairwise.nil
    · rw [apply_non_max_suppression, List.filterMap_map, List.pairwise_filterMap]
      refine (greedySel_pairwise nms_thresh top_k _).imp_of_mem ?_
      intro a b ha hb hab
      intro x hx y hy
      simp only [Function.comp_apply, Option.mem_def] at hx hy
      have hxa := selected_row_take (maskedRows box_data conf_thresh c) c a
        (greedySel_insertionSort_mem _ _ _ _ ha) x hx
      have hyb := selected_row_take (maskedRows box_data conf_thresh c) c b
        (greedySel_insertionSort_mem _ _ _ _ hb) y hy
      exact ⟨by rw [hxa, hyb]; exact hab, by rw [hxa, hyb, iou_comm]; exact hab⟩

end Paz

namespace Paz

unseal Rat.mul Rat.inv Rat.add Rat.sub in
/-- C6 counterexample: on the end-to-end example box array the output of
`nms_per_class` is not the single higher-scoring row — the class-1 scores
0.1 and 0.05 also pass `conf_thresh = 0.01`, so a second copy survives. -/
theorem nms_example_not_single_row :
    ¬ (nms_per_class [[0,0,10,10,9/10,1/10],[1,1,9,9,8/10,1/20]]
        (45/100) (1/100) 200 = [[0,0,10,10,9/10,1/10]]) := by
  decide

unseal Rat.mul Rat.inv Rat.add Rat.sub in
/-- C6 (amended): on the example box array with `nms_thresh = 0.45` and
`conf_thresh = 0.01`, the lower-scoring box is suppressed in both classes
(IoU 0.64 > 0.45) and the output is two copies of the higher-scoring box's
row — it survives for class 0 and, since its class-1 score 0.1 also passes
the confidence threshold, once more for class 1. -/
theorem nms_example_two_copies :
    nms_per_class [[0,0,10,10,9/10,1/10],[1,1,9,9,8/10,1/20]]
        (45/100) (1/100) 200
      = [[0,0,10,10,9/10,1/10],[0,0,10,10,9/10,1/10]] := by
  decide

unseal Rat.mul Rat.inv Rat.add Rat.sub in
/-- C10: a box whose scores pass the confidence threshold for two classes is
emitted once per class, and each emitted row carries the full per-class
score row (both scores), not only the score of the surviving class. -/
theorem nms_repeats_box_across_classes :
    nms_per_class [[0,0,10,10,9/10,8/10]] (45/100) (1/100) 200
      = [[0,0,10,10,9/10,8/10],[0,0,10,10,9/10,8/10]] := by
  decide

/-- C7: `filter_boxes` keeps exactly the rows of the input whose maximum
class score over columns 4 onward is at least the threshold, and it is
idempotent. -/
theorem filter_boxes_spec (boxes : List (List ℚ)) (conf_thresh : ℚ) :
    (∀ row, row ∈ filter_boxes boxes conf_thresh ↔
        row ∈ boxes ∧ ∃ m, (row.drop 4).max? = some m ∧ conf_thresh ≤ m)
    ∧ filter_boxes (filter_boxes boxes conf_thresh) conf_thresh
        = filter_boxes boxes conf_thresh := by
  constructor
  · intro row
    rw [filter_boxes, List.mem_filter]
    constructor
    · rintro ⟨hmem, hp⟩
      refine ⟨hmem, ?_⟩
      cases hmax : (row.drop 4).max? with
      | none => rw [hmax] at hp; simp at hp
      | some m =>
        rw [hmax] at hp
        exact ⟨m, rfl, by simpa using hp⟩
    · rintro ⟨hmem, m, hmax, hle⟩
      refine ⟨hmem, ?_⟩
      rw [hmax]
      simpa using hle
  · simp only [filter_boxes, List.filter_filter]
    refine List.filter_congr ?_
    intro row hmem
    exact Bool.and_self _

end Paz

namespace Paz

unseal Rat.mul Rat.inv Rat.add Rat.sub in
/-- C5 evidence: the division by the camera-space depth in
`project_to_image` is not guarded.  For the point `(1, 2, 0)` under the
identity pose the depth is exactly zero, and the function neither raises a
validation error nor clamps: it returns the row with both coordinates
non-finite (`none` models the Inf/NaN that numpy's division by zero
produces and silently propagates). -/
theorem project_to_image_zero_depth_unguarded :
    project_to_image [[1,0,0],[0,1,0],[0,0,1]] [0,0,0] [[1,2,0]]
        [[1,0,0],[0,1,0],[0,0,1]]
      = Except.ok [(none, none)] := by
  rfl

unseal Rat.mul Rat.inv Rat.add Rat.sub in
/-- C9: the deprecated `normalize_keypoints` and the newer
`denormalize_keypoints2D` use different conventions (the deprecated one
flips y and half-pixel-shifts), so composing them is not the identity: at
the keypoint `(0, 0)` with height = width = 2 the round trip returns
`(1/2, 3/2)`.  The newer pair does round-trip at the same input, so the
deprecated pair is not a drop-in replacement. -/
theorem deprecated_normalize_not_inverse :
    denormalize_keypoints2D (normalize_keypoints [(0, 0)] 2 2) 2 2
        = [((1/2 : ℚ), (3/2 : ℚ))]
    ∧ denormalize_keypoints2D (normalize_keypoints [(0, 0)] 2 2) 2 2
        ≠ [((0 : ℚ), (0 : ℚ))]
    ∧ denormalize_keypoints2D (normalize_keypoints2D [(0, 0)] 2 2) 2 2
        = [((0 : ℚ), (0 : ℚ))] := by
  refine ⟨by decide, by decide, by decide⟩

/-- C2: whenever the shape checks pass and each transformed point has
nonzero depth, `project_to_image` returns, for each point `p` with camera
coordinates `(x, y, z) = R·p + t`, exactly the pair
`(fx·(x/z) + cx, fy·(y/z) + cy)` read off the intrinsics matrix. -/
theorem project_to_image_formula (rotation : List (List ℚ))
    (translation : List ℚ) (points3D : List (List ℚ))
    (camera_intrinsics : List (List ℚ))
    (hR : rotation.length = 3 ∧ ∀ r ∈ rotation, r.length = 3)
    (ht : translation.length = 3)
    (hP : ∀ r ∈ points3D, r.length = 3)
    (hz : ∀ p ∈ points3D, (camPoint rotation translation p).getD 2 0 ≠ 0) :
    project_to_image rotation translation points3D camera_intrinsics =
      Except.ok (points3D.map (fun p =>
        (some ((camera_intrinsics.getD 0 []).getD 0 0 *
            ((camPoint rotation translation p).getD 0 0 /
              (camPoint rotation translation p).getD 2 0) +
            (camera_intrinsics.getD 0 []).getD 2 0),
         some ((camera_intrinsics.getD 1 []).getD 1 0 *
            ((camPoint rotation translation p).getD 1 0 /
              (camPoint rotation translation p).getD 2 0) +
            (camera_intrinsics.getD 1 []).getD 2 0)))) := by
  rw [project_to_image, if_neg (not_not_intro hR), if_neg (not_not_intro ht),
    if_neg (by push_neg; exact hP)]
  congr 1
  refine List.map_congr_left ?_
  intro p hp
  rw [depthDiv, depthDiv, if_neg (hz p hp), if_neg (hz p hp)]
  rfl

unseal Rat.mul Rat.inv Rat.add Rat.sub in
/-- C2 witness: with identity rotation, zero translation, `fx = fy = 1` and
`cx = cy = 0`, projecting the point `(0, 0, 5)` yields `(0, 0)`. -/
theorem project_to_image_formula_witness :
    project_to_image [[1,0,0],[0,1,0],[0,0,1]] [0,0,0] [[0,0,5]]
        [[1,0,0],[0,1,0],[0,0,1]]
      = Except.ok [(some 0, some 0)] := by
  rw [project_to_image_formula [[1,0,0],[0,1,0],[0,0,1]] [0,0,0] [[0,0,5]]
    [[1,0,0],[0,1,0],[0,0,1]] (by decide) (by decide) (by decide) (by decide)]
  rfl

/-- C3: `project_to_image` fails with a validation error whenever the
rotation is not exactly 3×3, or the translation does not have exactly 3
components, or some row of `points3D` does not have exactly 3 entries —
it never silently broadcasts such inputs. -/
theorem project_to_image_validation (rotation : List (List ℚ))
    (translation : List ℚ) (points3D : List (List ℚ))
    (camera_intrinsics : List (List ℚ))
    (hbad : ¬ (rotation.length = 3 ∧ ∀ r ∈ rotation, r.length = 3) ∨
      translation.length ≠ 3 ∨ ∃ r ∈ points3D, r.length ≠ 3) :
    ∃ msg, project_to_image rotation translation points3D camera_intrinsics
      = Except.error msg := by
  rw [project_to_image]
  split
  · exact ⟨_, rfl⟩
  · split
    · exact ⟨_, rfl⟩
    · split
      · exact ⟨_, rfl⟩
      · rename_i hc1 hc2 hc3
        rcases hbad with h | h | h
        · exact absurd h hc1
        · exact absurd h hc2
        · exact absurd h hc3

/-- C3 witness: a 2×2 identity rotation is rejected with a validation
error. -/
theorem project_to_image_validation_witness :
    ∃ msg, project_to_image [[1,0],[0,1]] [0,0,0] [[0,0,1]]
        [[1,0,0],[0,1,0],[0,0,1]]
      = Except.error msg :=
  project_to_image_validation [[1,0],[0,1]] [0,0,0] [[0,0,1]]
    [[1,0,0],[0,1,0],[0,0,1]] (Or.inl (by decide))

end Paz

namespace Paz

/-- C4: `solve_PnP_RANSAC` rejects fewer than 4 3D or 2D points with a
validation error saying at least 4 points are required; with at least 4
correspondences it returns the external solver's success flag and axis-angle
rotation vector unchanged, together with the translation squeezed from the
`(3, 1)` column returned by the solver into a flat 3-vector. -/
theorem solve_PnP_RANSAC_spec
    (solvePnPRansac : List (List ℚ) → List (List (List ℚ)) → List (List ℚ) →
      ℚ → ℕ → Bool × List (List ℚ) × List (List ℚ) × List ℕ)
    (object_points3D : List (List ℚ)) (image_points2D : List (List ℚ))
    (camera_intrinsics : List (List ℚ)) (inlier_threshold : ℚ)
    (num_iterations : ℕ) :
    ((object_points3D.length < 4 ∨ image_points2D.length < 4) →
      solve_PnP_RANSAC solvePnPRansac object_points3D image_points2D
          camera_intrinsics inlier_threshold num_iterations
        = Except.error "Solve PnP requires at least 4 3D and 2D points")
    ∧ ∀ success rvec tvec inliers,
        4 ≤ object_points3D.length → 4 ≤ image_points2D.length →
        solvePnPRansac object_points3D
            (preprocess_image_points2D image_points2D) camera_intrinsics
            inlier_threshold num_iterations = (success, rvec, tvec, inliers) →
        (∀ r ∈ tvec, r.length = 1) → tvec.length = 3 →
        solve_PnP_RANSAC solvePnPRansac object_points3D image_points2D
            camera_intrinsics inlier_threshold num_iterations
          = Except.ok (success, rvec, tvec.map (fun r => r.headD 0))
        ∧ (tvec.map (fun r => r.headD 0)).length = 3 := by
  constructor
  · intro hlt
    rw [solve_PnP_RANSAC, if_pos hlt]
  · intro success rvec tvec inliers h3 h2 hsolve hrows hlen
    have hcond : ¬ (object_points3D.length < 4 ∨ image_points2D.length < 4) := by
      push_neg
      exact ⟨not_lt.mp (not_lt.mpr h3), not_lt.mp (not_lt.mpr h2)⟩
    constructor
    · rw [solve_PnP_RANSAC, if_neg hcond, hsolve]
      have hsq : squeezeAxis1 tvec = some (tvec.map (fun r => r.headD 0)) := by
        rw [squeezeAxis1, if_pos]
        rw [List.all_eq_true]
        intro r hr
        simpa using hrows r hr
      simp only [hsq]
    · rw [List.length_map, hlen]

/-- C4 witness: with 3 correspondences the validation error fires, and with
4 correspondences a solver returning translation column `[[4],[5],[6]]`
yields the flat translation `[4, 5, 6]` alongside the success flag and the
rotation vector. -/
theorem solve_PnP_RANSAC_spec_witness :
    (solve_PnP_RANSAC
        (fun _ _ _ _ _ => (true, [[(1:ℚ)],[2],[3]], [[(4:ℚ)],[5],[6]], ([] : List ℕ)))
        [[0,0,0],[1,0,0],[0,1,0]] [[0,0],[1,0],[0,1]]
        [[1,0,0],[0,1,0],[0,0,1]] 5 100
      = Except.error "Solve PnP requires at least 4 3D and 2D points")
    ∧ (solve_PnP_RANSAC
        (fun _ _ _ _ _ => (true, [[(1:ℚ)],[2],[3]], [[(4:ℚ)],[5],[6]], ([] : List ℕ)))
        [[0,0,0],[1,0,0],[0,1,0],[1,1,1]] [[0,0],[1,0],[0,1],[1,1]]
        [[1,0,0],[0,1,0],[0,0,1]] 5 100
      = Except.ok (true, [[1],[2],[3]], [4,5,6])) := by
  constructor
  · exact (solve_PnP_RANSAC_spec
      (fun _ _ _ _ _ => (true, [[(1:ℚ)],[2],[3]], [[(4:ℚ)],[5],[6]], ([] : List ℕ)))
      [[0,0,0],[1,0,0],[0,1,0]] [[0,0],[1,0],[0,1]]
      [[1,0,0],[0,1,0],[0,0,1]] 5 100).1 (Or.inl (by decide))
  · have h := ((solve_PnP_RANSAC_spec
      (fun _ _ _ _ _ => (true, [[(1:ℚ)],[2],[3]], [[(4:ℚ)],[5],[6]], ([] : List ℕ)))
      [[0,0,0],[1,0,0],[0,1,0],[1,1,1]] [[0,0],[1,0],[0,1],[1,1]]
      [[1,0,0],[0,1,0],[0,0,1]] 5 100).2 true [[1],[2],[3]] [[4],[5],[6]] []
      (by decide) (by decide) rfl (by decide) (by decide)).1
    rw [h]
    rfl

theorem uniformScale_pos (image_size : ℕ) (image : Image)
    (hs : 0 < image_size) (hh : 0 < image.height) (hw : 0 < image.width) :
    0 < uniformScale image_size image := by
  rw [uniformScale]
  refine lt_min ?_ ?_
  · exact div_pos (by exact_mod_cast hs) (by exact_mod_cast hw)
  · exact div_pos (by exact_mod_cast hs) (by exact_mod_cast hh)

theorem scaledHeight_le (image_size : ℕ) (image : Image)
    (hh : 0 < image.height) : scaledHeight image_size image ≤ image_size := by
  rw [scaledHeight]
  have hne : (image.height : ℚ) ≠ 0 := by
    exact_mod_cast Nat.pos_iff_ne_zero.mp hh
  have h1 : (image.height : ℚ) * uniformScale image_size image ≤ image_size := by
    calc (image.height : ℚ) * uniformScale image_size image
        ≤ (image.height : ℚ) * ((image_size : ℚ) / (image.height : ℚ)) := by
          refine mul_le_mul_of_nonneg_left ?_ (by positivity)
          exact min_le_right _ _
      _ = (image_size : ℚ) := by field_simp
  have h2 : ⌊(image.height : ℚ) * uniformScale image_size image⌋ ≤ (image_size : ℤ) := by
    have := Int.floor_le_floor h1
    rwa [Int.floor_natCast] at this
  exact Int.toNat_le.mpr h2

theorem scaledWidth_le (image_size : ℕ) (image : Image)
    (hw : 0 < image.width) : scaledWidth image_size image ≤ image_size := by
  rw [scaledWidth]
  have hne : (image.width : ℚ) ≠ 0 := by
    exact_mod_cast Nat.pos_iff_ne_zero.mp hw
  have h1 : (image.width : ℚ) * uniformScale image_size image ≤ image_size := by
    calc (image.width : ℚ) * uniformScale image_size image
        ≤ (image.width : ℚ) * ((image_size : ℚ) / (image.width : ℚ)) := by
          refine mul_le_mul_of_nonneg_left ?_ (by positivity)
          exact min_le_left _ _
      _ = (image_size : ℚ) := by field_simp
  have h2 : ⌊(image.width : ℚ) * uniformScale image_size image⌋ ≤ (image_size : ℤ) := by
    have := Int.floor_le_floor h1
    rwa [Int.floor_natCast] at this
  exact Int.toNat_le.mpr h2

/-- C8: for a positive target size and image dimensions, and a resize
collaborator honouring its contract (it returns an image of the requested
width and height with the channels preserved), `ScaledResize.call` returns
the inverse of the single uniform scale factor
`min(size/width, size/height)` (so multiplying by the returned value undoes
the scale), and a `size × size` canvas holding the resized image at the
top-left corner with every other pixel zero. -/
theorem ScaledResize_spec (resize_image : Image → ℕ → ℕ → Image)
    (image_size : ℕ) (image : Image)
    (hs : 0 < image_size) (hh : 0 < image.height) (hw : 0 < image.width)
    (hres : ∀ im w h, (resize_image im w h).height = h ∧
      (resize_image im w h).width = w ∧
      (resize_image im w h).channels = im.channels) :
    (ScaledResize_call resize_image image_size image).2
        = (uniformScale image_size image)⁻¹
    ∧ (ScaledResize_call resize_image image_size image).2
        * uniformScale image_size image = 1
    ∧ (ScaledResize_call resize_image image_size image).1.height = image_size
    ∧ (ScaledResize_call resize_image image_size image).1.width = image_size
    ∧ (ScaledResize_call resize_image image_size image).1.channels
        = image.channels
    ∧ ∀ i j k, (ScaledResize_call resize_image image_size image).1.pix i j k
        = if i < scaledHeight image_size image ∧ j < scaledWidth image_size image
              ∧ k < image.channels then
            (resize_image image (scaledWidth image_size image)
              (scaledHeight image_size image)).pix i j k
          else 0 := by
  obtain ⟨e1, e2, e3⟩ := hres image (scaledWidth image_size image)
    (scaledHeight image_size image)
  have hpos := uniformScale_pos image_size image hs hh hw
  refine ⟨one_div _, ?_, rfl, rfl, rfl, ?_⟩
  · rw [ScaledResize_call]
    exact one_div_mul_cancel (ne_of_gt hpos)
  · intro i j k
    show (if i < min (resize_image image (scaledWidth image_size image)
        (scaledHeight image_size image)).height image_size
        ∧ j < min (resize_image image (scaledWidth image_size image)
          (scaledHeight image_size image)).width image_size
        ∧ k < (resize_image image (scaledWidth image_size image)
          (scaledHeight image_size image)).channels then
        (resize_image image (scaledWidth image_size image)
          (scaledHeight image_size image)).pix i j k
      else 0) = _
    rw [e1, e2, e3, min_eq_left (scaledHeight_le image_size image hh),
      min_eq_left (scaledWidth_le image_size image hw)]

unseal Rat.mul Rat.inv Rat.add Rat.sub in
/-- C8 witness: an 8×8 target on a 2×4 single-channel image gives the scale
factor 2, so the returned value is 1/2, the resized image fills rows 0–3
and all 8 columns, and the pixel at row 4 is zero padding. -/
theorem ScaledResize_spec_witness :
    (ScaledResize_call (fun im w h => Image.mk h w im.channels (fun _ _ _ => 5))
        8 (Image.mk 2 4 1 (fun _ _ _ => 3))).2 = 1/2
    ∧ (ScaledResize_call (fun im w h => Image.mk h w im.channels (fun _ _ _ => 5))
        8 (Image.mk 2 4 1 (fun _ _ _ => 3))).1.pix 0 0 0 = 5
    ∧ (ScaledResize_call (fun im w h => Image.mk h w im.channels (fun _ _ _ => 5))
        8 (Image.mk 2 4 1 (fun _ _ _ => 3))).1.pix 4 0 0 = 0 := by
  have h := ScaledResize_spec
    (fun im w h => Image.mk h w im.channels (fun _ _ _ => 5))
    8 (Image.mk 2 4 1 (fun _ _ _ => 3))
    (by decide) (by decide) (by decide) (fun im w h => ⟨rfl, rfl, rfl⟩)
  refine ⟨?_, ?_, ?_⟩
  · rw [h.1]
    rw [show uniformScale 8 (Image.mk 2 4 1 (fun _ _ _ => 3)) = 2 from by decide]
    norm_num
  · rw [h.2.2.2.2.2 0 0 0]
    rw [if_pos]
    refine ⟨?_, ?_, by decide⟩
    · rw [show scaledHeight 8 (Image.mk 2 4 1 (fun _ _ _ => 3)) = 4 from by decide]
      decide
    · rw [show scaledWidth 8 (Image.mk 2 4 1 (fun _ _ _ => 3)) = 8 from by decide]
      decide
  · rw [h.2.2.2.2.2 4 0 0]
    rw [if_neg]
    intro hcon
    have h4 := hcon.1
    rw [show scaledHeight 8 (Image.mk 2 4 1 (fun _ _ _ => 3)) = 4 from by decide] at h4
    exact absurd h4 (by decide)

end Paz
